import Mathlib

/-!
Verification of the darkpool-gateway indexing and liquidation core.

A shallow embedding of the chain-event synchronization and derived-state
ledger of `perp-minimal-backend` (indexer-server + liquidation-bot),
with proofs about the ledger invariants, pagination, note removal,
dispatch-loop error handling, backfill chunking and nonce allocation.

Conventions of the embedding:
* sled trees keyed by bytes become functions `String → _` (owner keys and
  position ids are carried as their canonical string forms; the Rust code
  stores position ids as `"0x" ++ hex` strings and looks them up with
  `format!("0x{}", hex::encode(id))`, so key equality in the code is
  string equality of the canonical form);
* the `unspent_notes` tree, which is the only tree the code iterates,
  is an association list ordered the way `sled::Tree::iter` scans keys;
* numeric event payloads (`U256` amounts, prices) are carried as decimal
  strings exactly as the Rust `models.rs` does;
* fallible operations whose only failure source is the persistence engine
  are modelled as pure state transformers; where a Rust `U256` arithmetic
  operation can panic the model returns `Option`.
-/

/-- Rust `models.rs`: `PositionStatus` (`Open`, `Closed`, `Liquidated`). -/
inductive PositionStatus where
  | Open
  | Closed
  | Liquidated
deriving DecidableEq

/-- Rust `models.rs`: `Position`; all numeric values are decimal strings. -/
structure Position where
  position_id : String
  is_long : Bool
  entry_price : String
  margin : String
  size : String
deriving DecidableEq

/-- Rust `database.rs` / `models.rs`: `HistoricalPosition` as constructed by
`Database::move_to_historical` (embedded position, status, final pnl and
owner address). -/
structure HistoricalPosition where
  position : Position
  status : PositionStatus
  final_pnl : String
  owner_address : String
deriving DecidableEq

/-- Rust `models.rs`: `Note` (nonce, receiver hash, value). -/
structure Note where
  note_nonce : Nat
  receiver_hash : String
  value : String
deriving DecidableEq

/-- Rust `models.rs`: `UnspentNote` (note id plus flattened note). -/
structure UnspentNote where
  note_id : String
  note : Note
deriving DecidableEq

/-- Rust `models.rs`: `PaginatedResponse`. -/
structure PaginatedResponse (α : Type) where
  items : List α
  has_more : Bool
  next_cursor : Option String
deriving DecidableEq

/-- Rust `database.rs`: `PositionData`, the tagged global record stored in the
`positions_by_id` tree. -/
inductive PositionData where
  | Open (p : Position)
  | Historical (h : HistoricalPosition)
deriving DecidableEq

/-- Rust `database.rs`: the `Database` struct.  Each sled tree becomes a total
map from the key's canonical string form to the stored value (absent key =
default empty value / `none`), except `unspent_notes`, which keeps sled's
key-ordered bucket sequence because `remove_unspent_note` iterates it. -/
structure Database where
  open_positions : String → List Position
  historical_positions : String → List HistoricalPosition
  unspent_notes : List (String × List UnspentNote)
  user_metadata : String → Option (List Nat)
  position_id_to_owner : String → Option String
  positions_by_id : String → Option PositionData

/-- A freshly opened database: every tree empty. -/
def emptyDatabase : Database where
  open_positions := fun _ => []
  historical_positions := fun _ => []
  unspent_notes := []
  user_metadata := fun _ => none
  position_id_to_owner := fun _ => none
  positions_by_id := fun _ => none

/-- Rust `Database::get_open_positions`: the owner's open list, `[]` when the
key is absent. -/
def get_open_positions (db : Database) (owner_pub_key : String) : List Position :=
  db.open_positions owner_pub_key

/-- Rust `Database::get_historical_positions_internal`: the owner's full
historical list, `[]` when the key is absent. -/
def get_historical_positions_internal (db : Database) (owner_pub_key : String) :
    List HistoricalPosition :=
  db.historical_positions owner_pub_key

/-- Rust `Database::add_open_position`: read the owner's open list, push the
position only if its id is not already present, write the list back, then
unconditionally insert the reverse-index entry and overwrite the global
id-keyed record tagged `Open`. -/
def add_open_position (db : Database) (owner_pub_key : String) (position : Position) :
    Database :=
  let positions := get_open_positions db owner_pub_key
  let positions' :=
    if positions.any (fun p => p.position_id == position.position_id) then positions
    else positions ++ [position]
  { db with
    open_positions := Function.update db.open_positions owner_pub_key positions'
    position_id_to_owner :=
      Function.update db.position_id_to_owner position.position_id (some owner_pub_key)
    positions_by_id :=
      Function.update db.positions_by_id position.position_id
        (some (PositionData.Open position)) }

/-- Models `iter().position(pred)` followed by `remove(index)`: returns the first
element satisfying `pred` together with the list with that one occurrence
removed, or `none` when no element matches. -/
def removeFirstBy {α : Type} (pred : α → Bool) : List α → Option (α × List α)
  | [] => none
  | x :: xs =>
    if pred x then some (x, xs)
    else (removeFirstBy pred xs).map (fun r => (r.1, x :: r.2))

/-- Rust `Database::move_to_historical`: resolve the owner through the reverse
index (`Ok(())` and no state change when absent); find the position in
the owner's open list (the code compares `p.position_id` with the hex of
the raw id, i.e. canonical-string equality); when found, remove it from
the open list, prepend the new `HistoricalPosition` to the owner's
historical list, delete the reverse-index entry and overwrite the global
record tagged `Historical`; when the reverse index hits but the open list
has no match, nothing is written. -/
def move_to_historical (db : Database) (position_id : String) (status : PositionStatus)
    (final_pnl : String) (owner_address : String) : Database :=
  match db.position_id_to_owner position_id with
  | none => db
  | some owner_pub_key =>
    match removeFirstBy (fun p => p.position_id == position_id)
        (get_open_positions db owner_pub_key) with
    | none => db
    | some (position_to_move, remaining) =>
      let historical_pos : HistoricalPosition :=
        { position := position_to_move, status := status, final_pnl := final_pnl
          owner_address := owner_address }
      { db with
        open_positions := Function.update db.open_positions owner_pub_key remaining
        historical_positions :=
          Function.update db.historical_positions owner_pub_key
            (historical_pos :: get_historical_positions_internal db owner_pub_key)
        position_id_to_owner := Function.update db.position_id_to_owner position_id none
        positions_by_id :=
          Function.update db.positions_by_id position_id
            (some (PositionData.Historical historical_pos)) }

/-- Rust `Database::get_historical_positions`: paginated read.  `start` is the
cursor (default 0), `end = min(start + page_size, len)`; an empty page
with `has_more = false` when `start ≥ len`; otherwise the slice
`all[start..end]`, `has_more = end < len`, and `next_cursor = end` as a
string exactly when `has_more`. -/
def get_historical_positions (db : Database) (owner_pub_key : String)
    (cursor : Option Nat) (page_size : Nat) : PaginatedResponse HistoricalPosition :=
  let all_positions := get_historical_positions_internal db owner_pub_key
  let start := cursor.getD 0
  let endIdx := min (start + page_size) all_positions.length
  if start ≥ all_positions.length then
    { items := [], has_more := false, next_cursor := none }
  else
    let items := (all_positions.drop start).take (endIdx - start)
    let has_more := decide (endIdx < all_positions.length)
    let next_cursor := if endIdx < all_positions.length then some (toString endIdx) else none
    { items := items, has_more := has_more, next_cursor := next_cursor }

/-- Rust `Database::get_position_by_id`. -/
def get_position_by_id (db : Database) (position_id : String) : Option PositionData :=
  db.positions_by_id position_id

/-- The loop body of `Database::remove_unspent_note`: scan the buckets in
key order; in each bucket `retain` every note whose id differs from the
target; if the bucket shrank, write it back and return immediately,
leaving all later buckets untouched; if no bucket shrank, change nothing. -/
def removeNoteFromBuckets (buckets : List (String × List UnspentNote))
    (note_id_to_remove : String) : List (String × List UnspentNote) :=
  match buckets with
  | [] => []
  | (key, notes) :: rest =>
    let notes' := notes.filter (fun n => n.note_id != note_id_to_remove)
    if notes'.length < notes.length then (key, notes') :: rest
    else (key, notes) :: removeNoteFromBuckets rest note_id_to_remove

/-- Rust `Database::remove_unspent_note` on the whole database. -/
def remove_unspent_note (db : Database) (note_id_to_remove : String) : Database :=
  { db with unspent_notes := removeNoteFromBuckets db.unspent_notes note_id_to_remove }

/-- Rust `Database::get_unspent_notes`: lookup of a receiver-hash bucket. -/
def get_unspent_notes (db : Database) (receiver_hash : String) : List UnspentNote :=
  match db.unspent_notes.find? (fun b => b.1 == receiver_hash) with
  | some b => b.2
  | none => []

/-! Chain sync controller, from `indexer.rs`. -/

/-- Rust `indexer.rs`: `BLOCK_CHUNK_SIZE`. -/
def BLOCK_CHUNK_SIZE : Nat := 2000

/-- The backfill `while from_block <= latest_block` loop of `run_indexer`:
the sequence of `(from_block, to_block)` ranges it queries, where
`to_block = min(from_block + BLOCK_CHUNK_SIZE - 1, latest_block)` and the
cursor then advances to `to_block + 1`. -/
def chunkRanges (from_block latest_block : Nat) : List (Nat × Nat) :=
  if h : from_block ≤ latest_block then
    let to_block := min (from_block + BLOCK_CHUNK_SIZE - 1) latest_block
    (from_block, to_block) :: chunkRanges (to_block + 1) latest_block
  else []
termination_by latest_block + 1 - from_block
decreasing_by
  simp only [Nat.min_def, BLOCK_CHUNK_SIZE]
  split <;> omega

/-- Rust `run_indexer` initialises the backfill cursor: `from_block` is read
from `get_block_number()` (the current head) and `latest_block` is a copy
of that same value (the code carries the comment
`Temp fix: Todo take from block from config`), so the chunk sequence the
backfill actually walks is `chunkRanges H H`. -/
def runIndexerBackfillChunks (head : Nat) : List (Nat × Nat) :=
  chunkRanges head head

/-- Whether a block number falls inside one of the queried ranges. -/
def blockCovered (ranges : List (Nat × Nat)) (b : Nat) : Bool :=
  ranges.any (fun r => decide (r.1 ≤ b) && decide (b ≤ r.2))

/-- The backfill dispatch loop of `run_indexer`: each handler call is
followed by `?`, so the first handler error is returned from
`run_indexer` and no later event is dispatched.  A handler is modelled as
`σ → ev → σ × Option ε`: the state it leaves behind (persistence writes
may have partially happened) and an optional error. -/
def backfillDispatchLoop {σ ev ε : Type} (handle : σ → ev → σ × Option ε)
    (s : σ) : List ev → Except ε σ
  | [] => Except.ok s
  | e :: es =>
    match handle s e with
    | (s', none) => backfillDispatchLoop handle s' es
    | (_, some err) => Except.error err

/-- The live dispatch loop of `run_indexer`: each handler call appears as
`let _ = handle(...)`, so the error (if any) is discarded and the loop
moves on to the next event from the streams. -/
def liveDispatchLoop {σ ev ε : Type} (handle : σ → ev → σ × Option ε)
    (s : σ) : List ev → σ
  | [] => s
  | e :: es => liveDispatchLoop handle (handle s e).1 es

/-! Nonce sequencer, from `liquidation-bot/src/main.rs` (`send_liquidation_tx`). -/

/-- Size of the `U256` value space. -/
def U256_SIZE : Nat := 2 ^ 256

/-- The nonce allocation block of `send_liquidation_tx`: under the
`nonce_manager` lock, read the counter, then `*nonce_lock += U256::one()`.
`U256` addition panics on overflow (it does not wrap), so the model
returns `none` exactly when the increment would overflow; otherwise the
allocated value is the old counter and the counter becomes its successor. -/
def allocate (counter : Nat) : Option (Nat × Nat) :=
  if counter + 1 < U256_SIZE then some (counter, counter + 1) else none

/-- Runs `n` successive allocations: the values handed out in issuance order
and the final counter, or `none` if any increment panics. -/
def allocateN : Nat → Nat → Option (List Nat × Nat)
  | 0, counter => some ([], counter)
  | n + 1, counter =>
    match allocate counter with
    | none => none
    | some (v, counter') =>
      match allocateN n counter' with
      | none => none
      | some (vs, final) => some (v :: vs, final)

/-! Handler operation sequences over the ledger. -/

/-- The two position-ledger mutations the event handlers perform:
`handle_position_opened` / `handle_public_pos_opened` call
`add_open_position`, and `handle_position_closed` /
`handle_position_liquidated` call `move_to_historical`. -/
inductive LedgerOp where
  | addOpen (owner_pub_key : String) (position : Position)
  | moveHist (position_id : String) (status : PositionStatus)
      (final_pnl : String) (owner_address : String)

/-- Apply one handler operation to the database. -/
def applyOp (db : Database) : LedgerOp → Database
  | LedgerOp.addOpen owner p => add_open_position db owner p
  | LedgerOp.moveHist pid st pnl addr => move_to_historical db pid st pnl addr

/-- The state reached from the empty ledger by a sequence of handler
operations. -/
def execOps (ops : List LedgerOp) : Database :=
  ops.foldl applyOp emptyDatabase

/-- The `(position id, owner)` pairs passed to `add_open_position` in a
sequence, in order. -/
def addedIds (ops : List LedgerOp) : List (String × String) :=
  ops.filterMap (fun op =>
    match op with
    | LedgerOp.addOpen owner p => some (p.position_id, owner)
    | LedgerOp.moveHist _ _ _ _ => none)

/-- The ids in an owner's open list. -/
def openIds (db : Database) (owner : String) : List String :=
  (db.open_positions owner).map Position.position_id

/-- The ids in an owner's historical list. -/
def histIds (db : Database) (owner : String) : List String :=
  (db.historical_positions owner).map (fun h => h.position.position_id)

/-- The inductive invariant tying a database state to the multiset of
`(id, owner)` pairs that have been added so far:
* every added id sits in exactly one of its owner's open and historical
  lists, with the reverse-index entry present (pointing at the owner)
  exactly in the open case;
* a pair never added contributes no open or historical membership;
* an id never added under any owner has no reverse-index entry;
* open lists never hold two positions with the same id;
* no id was added under two owners. -/
def LedgerInv (added : List (String × String)) (db : Database) : Prop :=
  (∀ pid owner, (pid, owner) ∈ added →
    (pid ∈ openIds db owner ∧ pid ∉ histIds db owner ∧
      db.position_id_to_owner pid = some owner) ∨
    (pid ∉ openIds db owner ∧ pid ∈ histIds db owner ∧
      db.position_id_to_owner pid = none)) ∧
  (∀ pid owner, (pid, owner) ∉ added →
    pid ∉ openIds db owner ∧ pid ∉ histIds db owner) ∧
  (∀ pid, (∀ owner, (pid, owner) ∉ added) → db.position_id_to_owner pid = none) ∧
  (∀ owner, (openIds db owner).Nodup) ∧
  (added.map Prod.fst).Nodup

/-! Concrete sample data used to instantiate the theorems below. -/

/-- A sample position with id `"0x" ++ i`. -/
def examplePosition (i : Nat) : Position :=
  { position_id := "0x" ++ toString i, is_long := true, entry_price := "100"
    margin := "10", size := "1" }

/-- A sample historical position wrapping `examplePosition i`. -/
def exampleHistorical (i : Nat) : HistoricalPosition :=
  { position := examplePosition i, status := PositionStatus.Closed
    final_pnl := "0", owner_address := "0xabc" }

/-- A database whose owner `"owner"` has five historical positions. -/
def exampleDb5 : Database :=
  { emptyDatabase with
    historical_positions :=
      Function.update emptyDatabase.historical_positions "owner"
        ((List.range 5).map exampleHistorical) }

/-- A sample event handler over a processed-event counter: it always
advances the counter and reports a persistence failure exactly on event
`0`. -/
def exampleHandler (s : Nat) (e : Nat) : Nat × Option Unit :=
  (s + 1, if e == 0 then some () else none)

/-- A sample unspent note; every `exampleNote i` has the same note id
`"0xaa"` (duplicate delivery of "note created" produces exactly such
duplicates) but a distinct nonce. -/
def exampleNote (i : Nat) : UnspentNote :=
  { note_id := "0xaa", note := { note_nonce := i, receiver_hash := "0xr", value := "5" } }

/-- The handler sequence open / close / open-again for one position id:
each event is delivered once except that the "opened" event is delivered
again after the position already moved to historical. -/
def duplicateOpenOps : List LedgerOp :=
  [LedgerOp.addOpen "owner" (examplePosition 1),
   LedgerOp.moveHist "0x1" PositionStatus.Closed "0" "0xabc",
   LedgerOp.addOpen "owner" (examplePosition 1)]

/-- A handler sequence that adds each position id at most once: one open
followed by one close. -/
def uniqueAddOps : List LedgerOp :=
  [LedgerOp.addOpen "owner" (examplePosition 1),
   LedgerOp.moveHist "0x1" PositionStatus.Closed "0" "0xabc"]

/-- A database holding exactly one open position (`examplePosition 1`)
for owner `"owner"`. -/
def exampleOneOpenDb : Database :=
  execOps [LedgerOp.addOpen "owner" (examplePosition 1)]

/-- A database holding two open positions (`examplePosition 1` then
`examplePosition 2`) for owner `"owner"`. -/
def exampleTwoOpenDb : Database :=
  execOps [LedgerOp.addOpen "owner" (examplePosition 1),
           LedgerOp.addOpen "owner" (examplePosition 2)]

/-! Helper lemmas. -/

theorem open_any_eq_true (l : List Position) (pid : String) :
    (l.any (fun q => q.position_id == pid) = true) ↔ pid ∈ l.map Position.position_id := by
  simp [List.any_eq_true, List.mem_map]

theorem owner_unique {l : List (String × String)} (hnd : (l.map Prod.fst).Nodup)
    {a b c : String} (h1 : (a, b) ∈ l) (h2 : (a, c) ∈ l) : b = c := by
  induction l with
  | nil => cases h1
  | cons x t ih =>
    rw [List.map_cons, List.nodup_cons] at hnd
    rcases List.mem_cons.mp h1 with h1e | h1t <;>
      rcases List.mem_cons.mp h2 with h2e | h2t
    · have := h2e.trans h1e.symm
      simpa [Prod.ext_iff] using this.symm
    · exfalso
      apply hnd.1
      rw [← h1e]
      have hm : (a, c).1 ∈ t.map Prod.fst := List.mem_map_of_mem Prod.fst h2t
      exact hm
    · exfalso
      apply hnd.1
      rw [← h2e]
      have hm : (a, b).1 ∈ t.map Prod.fst := List.mem_map_of_mem Prod.fst h1t
      exact hm
    · exact ih hnd.2 h1t h2t

theorem removeFirstBy_none {α : Type} (pred : α → Bool) (l : List α)
    (h : removeFirstBy pred l = none) : ∀ x ∈ l, pred x = false := by
  induction l with
  | nil => simp
  | cons y ys ih =>
    by_cases hy : pred y = true
    · simp [removeFirstBy, hy] at h
    · have hyf : pred y = false := by simpa using hy
      rw [removeFirstBy, if_neg hy, Option.map_eq_none'] at h
      intro x hx
      rcases List.mem_cons.mp hx with rfl | hx'
      · exact hyf
      · exact ih h x hx'

theorem removeFirstBy_some_spec {α : Type} (pred : α → Bool) :
    ∀ (l : List α) (x : α) (r : List α), removeFirstBy pred l = some (x, r) →
      pred x = true ∧ ∃ l₁ l₂, l = l₁ ++ x :: l₂ ∧ r = l₁ ++ l₂ ∧
        ∀ y ∈ l₁, pred y = false := by
  intro l
  induction l with
  | nil => intro x r h; simp [removeFirstBy] at h
  | cons y ys ih =>
    intro x r h
    by_cases hy : pred y = true
    · rw [removeFirstBy, if_pos hy] at h
      obtain ⟨rfl, rfl⟩ : y = x ∧ ys = r := by simpa [Prod.ext_iff] using h
      exact ⟨hy, [], ys, by simp, by simp, by simp⟩
    · have hyf : pred y = false := by simpa using hy
      cases hrec : removeFirstBy pred ys with
      | none => rw [removeFirstBy, if_neg hy, hrec] at h; simp at h
      | some pr =>
        obtain ⟨a, bs⟩ := pr
        rw [removeFirstBy, if_neg hy, hrec] at h
        obtain ⟨rfl, rfl⟩ : a = x ∧ y :: bs = r := by simpa [Prod.ext_iff] using h
        obtain ⟨hpa, l₁, l₂, hl, hr, hl₁⟩ := ih a bs hrec
        refine ⟨hpa, y :: l₁, l₂, by simp [hl], by simp [hr], ?_⟩
        intro z hz
        rcases List.mem_cons.mp hz with rfl | hz'
        · exact hyf
        · exact hl₁ z hz'

theorem removeFirstBy_ne_none_of_mem {α : Type} (pred : α → Bool) (l : List α)
    (h : ∃ x ∈ l, pred x = true) : removeFirstBy pred l ≠ none := by
  intro hnone
  obtain ⟨x, hx, hp⟩ := h
  have := removeFirstBy_none pred l hnone x hx
  rw [hp] at this
  cases this

theorem ledgerInv_add (added : List (String × String)) (db : Database)
    (hinv : LedgerInv added db) (owner : String) (p : Position)
    (hfresh : p.position_id ∉ added.map Prod.fst) :
    LedgerInv (added ++ [(p.position_id, owner)]) (add_open_position db owner p) := by
  obtain ⟨hA, hB, hC, hD, hE⟩ := hinv
  have hnotadded : ∀ o', (p.position_id, o') ∉ added := by
    intro o' hmem
    exact hfresh (List.mem_map_of_mem Prod.fst hmem)
  have hnoopen : ∀ o', p.position_id ∉ openIds db o' :=
    fun o' => (hB _ o' (hnotadded o')).1
  have hnohist : ∀ o', p.position_id ∉ histIds db o' :=
    fun o' => (hB _ o' (hnotadded o')).2
  have hany : (db.open_positions owner).any
      (fun q => q.position_id == p.position_id) = false := by
    have hne : ¬ ((db.open_positions owner).any
        (fun q => q.position_id == p.position_id) = true) := by
      rw [open_any_eq_true]
      exact hnoopen owner
    simpa using hne
  have hopen' : ∀ o', openIds (add_open_position db owner p) o' =
      if o' = owner then openIds db owner ++ [p.position_id] else openIds db o' := by
    intro o'
    by_cases ho : o' = owner
    · subst ho
      simp [openIds, add_open_position, get_open_positions, hany]
    · simp [openIds, add_open_position, get_open_positions,
        Function.update_noteq ho, ho]
  have hhist' : ∀ o', histIds (add_open_position db owner p) o' = histIds db o' := by
    intro o'
    simp [histIds, add_open_position]
  have hrev' : ∀ x, (add_open_position db owner p).position_id_to_owner x =
      if x = p.position_id then some owner else db.position_id_to_owner x := by
    intro x
    simp [add_open_position, Function.update_apply]
  refine ⟨?_, ?_, ?_, ?_, ?_⟩
  · intro pid o hmem
    rcases List.mem_append.mp hmem with hmem | hmem
    · have hne : pid ≠ p.position_id := by
        intro he
        subst he
        exact hfresh (List.mem_map_of_mem Prod.fst hmem)
      rcases hA pid o hmem with ⟨h1, h2, h3⟩ | ⟨h1, h2, h3⟩
      · left
        refine ⟨?_, ?_, ?_⟩
        · rw [hopen']
          split_ifs with ho
          · exact List.mem_append_left _ (ho ▸ h1)
          · exact h1
        · rw [hhist']; exact h2
        · rw [hrev', if_neg hne]; exact h3
      · right
        refine ⟨?_, ?_, ?_⟩
        · rw [hopen']
          split_ifs with ho
          · subst ho
            intro hc
            rcases List.mem_append.mp hc with hc | hc
            · exact h1 hc
            · exact hne (by simpa using hc)
          · exact h1
        · rw [hhist']; exact h2
        · rw [hrev', if_neg hne]; exact h3
    · obtain ⟨he1, he2⟩ : pid = p.position_id ∧ o = owner := by
        simpa [Prod.ext_iff] using hmem
      subst he1; subst he2
      left
      refine ⟨?_, ?_, ?_⟩
      · rw [hopen']
        simp
      · rw [hhist']; exact hnohist o
      · rw [hrev']; simp
  · intro pid o hnotmem
    have hold : (pid, o) ∉ added := fun hc => hnotmem (List.mem_append_left _ hc)
    have hnew : ¬(pid = p.position_id ∧ o = owner) := by
      rintro ⟨rfl, rfl⟩
      exact hnotmem (List.mem_append_right _ (by simp))
    obtain ⟨hbo, hbh⟩ := hB pid o hold
    constructor
    · rw [hopen']
      split_ifs with ho
      · subst ho
        intro hc
        rcases List.mem_append.mp hc with hc | hc
        · exact hbo hc
        · exact hnew ⟨by simpa using hc, rfl⟩
      · exact hbo
    · rw [hhist']; exact hbh
  · intro pid hnone
    have hne : pid ≠ p.position_id := by
      intro he
      subst he
      exact hnone owner (List.mem_append_right _ (by simp))
    rw [hrev', if_neg hne]
    exact hC pid (fun o hc => hnone o (List.mem_append_left _ hc))
  · intro o
    rw [hopen']
    split_ifs with ho
    · refine (hD owner).append (List.nodup_singleton _) ?_
      intro a ha hb
      rw [List.mem_singleton] at hb
      subst hb
      exact hnoopen owner ha
    · exact hD o
  · rw [List.map_append]
    refine hE.append (by simp) ?_
    intro a ha hb
    simp only [List.map_cons, List.map_nil, List.mem_singleton] at hb
    subst hb
    exact hfresh ha

theorem ledgerInv_move (added : List (String × String)) (db : Database)
    (hinv : LedgerInv added db) (pid : String) (st : PositionStatus)
    (pnl addr : String) :
    LedgerInv added (move_to_historical db pid st pnl addr) := by
  obtain ⟨hA, hB, hC, hD, hE⟩ := hinv
  cases hrev : db.position_id_to_owner pid with
  | none =>
    have heq : move_to_historical db pid st pnl addr = db := by
      simp [move_to_historical, hrev]
    rw [heq]
    exact ⟨hA, hB, hC, hD, hE⟩
  | some owner =>
    have hadded : ∃ o', (pid, o') ∈ added := by
      by_contra hcontra
      push_neg at hcontra
      have := hC pid hcontra
      rw [this] at hrev
      cases hrev
    obtain ⟨o₀, ho₀⟩ := hadded
    rcases hA pid o₀ ho₀ with ⟨hopen, hnh, hrv⟩ | ⟨hno, hh, hrv⟩
    swap
    · rw [hrv] at hrev; cases hrev
    have howner : o₀ = owner := Option.some.inj (hrv.symm.trans hrev)
    subst howner
    have hmemq : ∃ q ∈ db.open_positions o₀, (fun p' => p'.position_id == pid) q = true := by
      obtain ⟨q, hq, hqid⟩ := List.mem_map.mp hopen
      exact ⟨q, hq, by simp [hqid]⟩
    cases hrm : removeFirstBy (fun p' => p'.position_id == pid)
        (get_open_positions db o₀) with
    | none => exact absurd hrm (removeFirstBy_ne_none_of_mem _ _ hmemq)
    | some pr =>
      obtain ⟨q, rest⟩ := pr
      obtain ⟨hq, l₁, l₂, hsplit, hrest, hl₁⟩ := removeFirstBy_some_spec _ _ _ _ hrm
      have hqid : q.position_id = pid := by simpa using hq
      have hsplit' : db.open_positions o₀ = l₁ ++ q :: l₂ := hsplit
      have hopen' : ∀ o', (move_to_historical db pid st pnl addr).open_positions o' =
          if o' = o₀ then rest else db.open_positions o' := by
        intro o'
        simp [move_to_historical, hrev, hrm, Function.update_apply]
      have hhist' : ∀ o',
          (move_to_historical db pid st pnl addr).historical_positions o' =
          if o' = o₀ then
            ({ position := q, status := st, final_pnl := pnl, owner_address := addr } ::
              db.historical_positions o₀)
          else db.historical_positions o' := by
        intro o'
        simp [move_to_historical, hrev, hrm, get_historical_positions_internal,
          Function.update_apply]
      have hrev'' : ∀ x, (move_to_historical db pid st pnl addr).position_id_to_owner x =
          if x = pid then none else db.position_id_to_owner x := by
        intro x
        simp [move_to_historical, hrev, hrm, Function.update_apply]
      have hids : openIds db o₀ =
          l₁.map Position.position_id ++ pid :: l₂.map Position.position_id := by
        rw [openIds, hsplit']
        simp [hqid]
      have hmid : pid ∉ (l₁.map Position.position_id ++ l₂.map Position.position_id) ∧
          (l₁.map Position.position_id ++ l₂.map Position.position_id).Nodup := by
        have := hD o₀
        rw [hids, List.nodup_middle, List.nodup_cons] at this
        exact this
      have hopenIds' : ∀ o', openIds (move_to_historical db pid st pnl addr) o' =
          if o' = o₀ then
            l₁.map Position.position_id ++ l₂.map Position.position_id
          else openIds db o' := by
        intro o'
        rw [openIds, hopen']
        split_ifs with ho'
        · rw [hrest]; simp
        · rfl
      have hhistIds' : ∀ o', histIds (move_to_historical db pid st pnl addr) o' =
          if o' = o₀ then pid :: histIds db o₀ else histIds db o' := by
        intro o'
        rw [histIds, hhist']
        split_ifs with ho'
        · simp [hqid, histIds]
        · rfl
      have hmem_open' : ∀ x, x ≠ pid → ∀ o',
          (x ∈ openIds (move_to_historical db pid st pnl addr) o' ↔
            x ∈ openIds db o') := by
        intro x hx o'
        rw [hopenIds']
        split_ifs with ho'
        · subst ho'
          rw [hids]
          constructor
          · intro hc
            rcases List.mem_append.mp hc with hc | hc
            · exact List.mem_append_left _ hc
            · exact List.mem_append_right _ (List.mem_cons_of_mem _ hc)
          · intro hc
            rcases List.mem_append.mp hc with hc | hc
            · exact List.mem_append_left _ hc
            · rcases List.mem_cons.mp hc with hc | hc
              · exact absurd hc hx
              · exact List.mem_append_right _ hc
        · exact Iff.rfl
      have hpid_notin_open' :
          pid ∉ openIds (move_to_historical db pid st pnl addr) o₀ := by
        rw [hopenIds']
        simp only [if_pos rfl]
        exact hmid.1
      have hpid_in_hist' :
          pid ∈ histIds (move_to_historical db pid st pnl addr) o₀ := by
        rw [hhistIds']
        simp
      refine ⟨?_, ?_, ?_, ?_, hE⟩
      · intro x o hx
        by_cases hxe : x = pid
        · subst hxe
          have ho : o = o₀ := owner_unique hE hx ho₀
          subst ho
          right
          refine ⟨hpid_notin_open', hpid_in_hist', ?_⟩
          rw [hrev'']
          simp
        · rcases hA x o hx with ⟨h1, h2, h3⟩ | ⟨h1, h2, h3⟩
          · left
            refine ⟨(hmem_open' x hxe o).mpr h1, ?_, ?_⟩
            · rw [hhistIds']
              split_ifs with ho'
              · subst ho'
                intro hc
                rcases List.mem_cons.mp hc with hc | hc
                · exact hxe hc
                · exact h2 hc
              · exact h2
            · rw [hrev'', if_neg hxe]; exact h3
          · right
            refine ⟨?_, ?_, ?_⟩
            · intro hc
              exact h1 ((hmem_open' x hxe o).mp hc)
            · rw [hhistIds']
              split_ifs with ho'
              · subst ho'
                exact List.mem_cons_of_mem _ h2
              · exact h2
            · rw [hrev'', if_neg hxe]; exact h3
      · intro x o hx
        obtain ⟨hbo, hbh⟩ := hB x o hx
        by_cases hxe : x = pid
        · subst hxe
          have ho : o ≠ o₀ := fun h => hx (h ▸ ho₀)
          constructor
          · rw [hopenIds', if_neg ho]; exact hbo
          · rw [hhistIds', if_neg ho]; exact hbh
        · constructor
          · intro hc
            exact hbo ((hmem_open' x hxe o).mp hc)
          · rw [hhistIds']
            split_ifs with ho'
            · subst ho'
              intro hc
              rcases List.mem_cons.mp hc with hc | hc
              · exact hxe hc
              · exact hbh hc
            · exact hbh
      · intro x hx
        have hxe : x ≠ pid := fun h => hx o₀ (h ▸ ho₀)
        rw [hrev'', if_neg hxe]
        exact hC x hx
      · intro o'
        rw [hopenIds']
        split_ifs with ho'
        · exact hmid.2
        · exact hD o'

/-! Claim theorems. -/

/-- C3: for every owner, cursor `c` (defaulting to `0` when absent) and
page size, `get_historical_positions` returns the slice
`list[c : min(c+pageSize, len)]` of the owner's historical list, with
`has_more = end < len` and `next_cursor = toString end` exactly when
`has_more` (absent otherwise); whenever `c ≥ len` it returns an empty
item list with `has_more = false`; and over a 5-element list, cursor 0
with page size 2 yields `items[0:2]`, `has_more = true`,
`next_cursor = "2"`. -/
theorem get_historical_positions_spec (db : Database) (owner : String)
    (c page_size : Nat) :
    ((get_historical_positions db owner (some c) page_size).items =
      ((db.historical_positions owner).drop c).take
        (min (c + page_size) (db.historical_positions owner).length - c)) ∧
    ((get_historical_positions db owner (some c) page_size).has_more =
      decide (min (c + page_size) (db.historical_positions owner).length <
        (db.historical_positions owner).length)) ∧
    ((get_historical_positions db owner (some c) page_size).next_cursor =
      if min (c + page_size) (db.historical_positions owner).length <
          (db.historical_positions owner).length then
        some (toString (min (c + page_size) (db.historical_positions owner).length))
      else none) ∧
    (get_historical_positions db owner none page_size =
      get_historical_positions db owner (some 0) page_size) ∧
    ((db.historical_positions owner).length ≤ c →
      (get_historical_positions db owner (some c) page_size).items = [] ∧
      (get_historical_positions db owner (some c) page_size).has_more = false) ∧
    get_historical_positions exampleDb5 "owner" (some 0) 2 =
      { items := [exampleHistorical 0, exampleHistorical 1], has_more := true
        next_cursor := some "2" } := by
  by_cases hc : (db.historical_positions owner).length ≤ c
  · have hmin : min (c + page_size) (db.historical_positions owner).length =
        (db.historical_positions owner).length :=
      Nat.min_eq_right (le_trans hc (Nat.le_add_right c page_size))
    have hd : (db.historical_positions owner).drop c = [] :=
      List.drop_eq_nil_of_le hc
    refine ⟨?_, ?_, ?_, rfl, ?_, by decide⟩ <;>
      simp [get_historical_positions, get_historical_positions_internal, hc, hmin, hd]
  · have hlt : ¬ (db.historical_positions owner).length ≤ c := hc
    refine ⟨?_, ?_, ?_, rfl, ?_, by decide⟩ <;>
      simp [get_historical_positions, get_historical_positions_internal, hlt]

/-- C10: with a non-empty page range (`c < len`) and page size `0`,
`get_historical_positions` returns an empty item list, `has_more = true`
and `next_cursor = toString c`, so a caller paginating with page size 0
never advances past the same cursor. -/
theorem get_historical_positions_zero_page (db : Database) (owner : String) (c : Nat)
    (h : c < (db.historical_positions owner).length) :
    (get_historical_positions db owner (some c) 0).items = [] ∧
    (get_historical_positions db owner (some c) 0).has_more = true ∧
    (get_historical_positions db owner (some c) 0).next_cursor = some (toString c) := by
  have hmin : min c (db.historical_positions owner).length = c :=
    Nat.min_eq_left (Nat.le_of_lt h)
  have hnle : ¬ (db.historical_positions owner).length ≤ c := Nat.not_le.mpr h
  refine ⟨?_, ?_, ?_⟩ <;>
    simp [get_historical_positions, get_historical_positions_internal, hnle, hmin, h]

/-- Witness for C10 at `exampleDb5`, cursor 2. -/
theorem get_historical_positions_zero_page_witness :
    2 < (exampleDb5.historical_positions "owner").length ∧
    ((get_historical_positions exampleDb5 "owner" (some 2) 0).items = [] ∧
     (get_historical_positions exampleDb5 "owner" (some 2) 0).has_more = true ∧
     (get_historical_positions exampleDb5 "owner" (some 2) 0).next_cursor =
       some (toString 2)) :=
  ⟨by decide, get_historical_positions_zero_page exampleDb5 "owner" 2 (by decide)⟩

/-- C6: when the reverse-index entry for an id is absent,
`move_to_historical` succeeds and leaves the database unchanged; hence a
duplicate "closed"/"liquidated" event for the same id is a no-op after
the first, and the owner's historical list length is unchanged by the
duplicate. -/
theorem move_to_historical_absent_noop (db : Database) (pid : String)
    (st : PositionStatus) (pnl addr : String) :
    (db.position_id_to_owner pid = none → move_to_historical db pid st pnl addr = db) ∧
    move_to_historical (move_to_historical db pid st pnl addr) pid st pnl addr =
      move_to_historical db pid st pnl addr ∧
    ∀ o, ((move_to_historical (move_to_historical db pid st pnl addr) pid st pnl
        addr).historical_positions o).length =
      ((move_to_historical db pid st pnl addr).historical_positions o).length := by
  have habs : ∀ d : Database, d.position_id_to_owner pid = none →
      move_to_historical d pid st pnl addr = d := by
    intro d hd
    simp [move_to_historical, hd]
  have hdup : move_to_historical (move_to_historical db pid st pnl addr) pid st pnl addr =
      move_to_historical db pid st pnl addr := by
    cases hrev : db.position_id_to_owner pid with
    | none => rw [habs db hrev, habs db hrev]
    | some owner =>
      cases hrm : removeFirstBy (fun p => p.position_id == pid)
          (get_open_positions db owner) with
      | none =>
        have hdb : move_to_historical db pid st pnl addr = db := by
          simp [move_to_historical, hrev, hrm]
        rw [hdb, hdb]
      | some pr =>
        obtain ⟨ptm, rem⟩ := pr
        apply habs
        simp [move_to_historical, hrev, hrm]
  exact ⟨habs db, hdup, fun o => by rw [hdup]⟩

/-- Witness for C6 on the empty database. -/
theorem move_to_historical_absent_noop_witness :
    emptyDatabase.position_id_to_owner "0x1" = none ∧
    move_to_historical emptyDatabase "0x1" PositionStatus.Closed "0" "0xabc" =
      emptyDatabase :=
  ⟨rfl, (move_to_historical_absent_noop emptyDatabase "0x1" PositionStatus.Closed
    "0" "0xabc").1 rfl⟩

/-- Witness for C3: the cursor-past-the-end clause at `exampleDb5`,
cursor 7. -/
theorem get_historical_positions_spec_witness :
    (exampleDb5.historical_positions "owner").length ≤ 7 ∧
    (get_historical_positions exampleDb5 "owner" (some 7) 3).items = [] ∧
    (get_historical_positions exampleDb5 "owner" (some 7) 3).has_more = false :=
  ⟨by decide, (get_historical_positions_spec exampleDb5 "owner" 7 3).2.2.2.2.1 (by decide)⟩

/-- C8: `move_to_historical` prepends the migrated position to the
owner's historical list: with `A` and `B` open for the same owner,
moving `A` and then `B` yields the historical list
`[B-as-historical, A-as-historical]` followed by the previously present
entries in their prior order. -/
theorem move_to_historical_prepend (db : Database) (o : String) (A B : Position)
    (st1 : PositionStatus) (pnl1 ad1 : String)
    (st2 : PositionStatus) (pnl2 ad2 : String)
    (hopen : db.open_positions o = [A, B])
    (hrevA : db.position_id_to_owner A.position_id = some o)
    (hrevB : db.position_id_to_owner B.position_id = some o)
    (hne : A.position_id ≠ B.position_id) :
    (move_to_historical (move_to_historical db A.position_id st1 pnl1 ad1)
        B.position_id st2 pnl2 ad2).historical_positions o =
      { position := B, status := st2, final_pnl := pnl2, owner_address := ad2 } ::
      { position := A, status := st1, final_pnl := pnl1, owner_address := ad1 } ::
      db.historical_positions o := by
  have hrm1 : removeFirstBy (fun p => p.position_id == A.position_id)
      (get_open_positions db o) = some (A, [B]) := by
    simp [get_open_positions, hopen, removeFirstBy]
  set db1 := move_to_historical db A.position_id st1 pnl1 ad1 with hdb1
  have h1open : db1.open_positions o = [B] := by
    rw [hdb1]; simp [move_to_historical, hrevA, hrm1]
  have h1hist : db1.historical_positions o
      = { position := A, status := st1, final_pnl := pnl1, owner_address := ad1 } ::
        db.historical_positions o := by
    rw [hdb1]; simp [move_to_historical, hrevA, hrm1, get_historical_positions_internal]
  have h1rev : db1.position_id_to_owner B.position_id = some o := by
    rw [hdb1]
    simp [move_to_historical, hrevA, hrm1,
      Function.update_noteq (Ne.symm hne), hrevB]
  have hrm2 : removeFirstBy (fun p => p.position_id == B.position_id)
      (get_open_positions db1 o) = some (B, []) := by
    simp [get_open_positions, h1open, removeFirstBy]
  simp [move_to_historical, h1rev, hrm2, get_historical_positions_internal, h1hist]

/-- Witness for C8 on a database with two open positions. -/
theorem move_to_historical_prepend_witness :
    exampleTwoOpenDb.open_positions "owner" = [examplePosition 1, examplePosition 2] ∧
    exampleTwoOpenDb.position_id_to_owner (examplePosition 1).position_id =
      some "owner" ∧
    exampleTwoOpenDb.position_id_to_owner (examplePosition 2).position_id =
      some "owner" ∧
    (examplePosition 1).position_id ≠ (examplePosition 2).position_id ∧
    (move_to_historical (move_to_historical exampleTwoOpenDb
        (examplePosition 1).position_id PositionStatus.Closed "3" "0xabc")
        (examplePosition 2).position_id PositionStatus.Liquidated "Liquidated"
        "0xdef").historical_positions "owner" =
      [{ position := examplePosition 2, status := PositionStatus.Liquidated
         final_pnl := "Liquidated", owner_address := "0xdef" },
       { position := examplePosition 1, status := PositionStatus.Closed
         final_pnl := "3", owner_address := "0xabc" }] :=
  ⟨by decide, by decide, by decide, by decide, by
    rw [move_to_historical_prepend exampleTwoOpenDb "owner" (examplePosition 1)
      (examplePosition 2) PositionStatus.Closed "3" "0xabc" PositionStatus.Liquidated
      "Liquidated" "0xdef" (by decide) (by decide) (by decide) (by decide)]
    decide⟩

/-- C9: calling `add_open_position` with an id already present in the
owner's open list leaves that open list unchanged, but still
unconditionally re-inserts the id-to-owner reverse-index entry and
overwrites the global id-keyed record with the delivered position tagged
open; in particular a duplicate "opened" event for an id whose global
record is already tagged historical re-tags it back to open and
recreates the reverse-index entry. -/
theorem add_open_position_duplicate (db : Database) (owner : String) (p : Position) :
    (p.position_id ∈ openIds db owner →
      (add_open_position db owner p).open_positions owner = db.open_positions owner) ∧
    (add_open_position db owner p).position_id_to_owner p.position_id = some owner ∧
    (add_open_position db owner p).positions_by_id p.position_id =
      some (PositionData.Open p) ∧
    (∀ h : HistoricalPosition,
      db.positions_by_id p.position_id = some (PositionData.Historical h) →
      (add_open_position db owner p).positions_by_id p.position_id =
        some (PositionData.Open p) ∧
      (add_open_position db owner p).position_id_to_owner p.position_id =
        some owner) := by
  refine ⟨?_, ?_, ?_, fun h _ => ⟨?_, ?_⟩⟩ <;>
    [skip; simp [add_open_position]; simp [add_open_position];
     simp [add_open_position]; simp [add_open_position]]
  intro hmem
  have hany : (db.open_positions owner).any
      (fun q => q.position_id == p.position_id) = true :=
    (open_any_eq_true _ _).mpr hmem
  simp [add_open_position, get_open_positions, hany]

/-- Witness for C9 on a database already holding the position open. -/
theorem add_open_position_duplicate_witness :
    (examplePosition 1).position_id ∈ openIds exampleOneOpenDb "owner" ∧
    (add_open_position exampleOneOpenDb "owner" (examplePosition 1)).open_positions
      "owner" = exampleOneOpenDb.open_positions "owner" :=
  ⟨by decide, (add_open_position_duplicate exampleOneOpenDb "owner"
    (examplePosition 1)).1 (by decide)⟩

/-- C1 (code divergence): `run_indexer` initialises both the backfill
cursor and the captured head to the same freshly read head block (the
code carries the note `Temp fix: Todo take from block from config`), so
with head `H = 3000` the backfill walks the single chunk `[3000, 3000]`
and no block below the head — in particular a configured start block of
`0` is never covered, contradicting coverage of every block from the
configured start block through `H`. -/
theorem backfill_covers_only_head :
    runIndexerBackfillChunks 3000 = [(3000, 3000)] ∧
    blockCovered (runIndexerBackfillChunks 3000) 0 = false ∧
    blockCovered (runIndexerBackfillChunks 3000) 2999 = false := by
  have h2 : chunkRanges 3001 3000 = [] := by
    rw [chunkRanges]
    norm_num
  have h1 : runIndexerBackfillChunks 3000 = [(3000, 3000)] := by
    rw [runIndexerBackfillChunks, chunkRanges]
    norm_num [BLOCK_CHUNK_SIZE, h2]
  exact ⟨h1, by rw [h1]; decide, by rw [h1]; decide⟩

/-- C7 (counterexample to the unbounded claim): at the largest `U256`
counter value the increment inside `allocate` panics (`U256` addition
does not wrap), so a single allocation starting from
`U256_SIZE - 1` produces no value at all instead of the claimed value
`c` with final counter `c + 1`. -/
theorem allocate_overflow_counterexample :
    allocateN 1 (U256_SIZE - 1) = none ∧
    allocateN 1 (U256_SIZE - 1) ≠ some ([U256_SIZE - 1], U256_SIZE) := by
  have h : allocate (U256_SIZE - 1) = none := by decide
  refine ⟨?_, ?_⟩ <;> simp [allocateN, h]

/-- C7 (amended): as long as the counter cannot overflow
(`c + N < 2^256`), `N` successive allocations return exactly the
pairwise-distinct, contiguous, increasing values
`c, c + 1, ..., c + N - 1` in issuance order and leave the counter at
`c + N`. -/
theorem allocate_sequence (c n : Nat) (h : c + n < U256_SIZE) :
    allocateN n c = some (List.range' c n, c + n) ∧
    (List.range' c n).Pairwise (· < ·) ∧
    (List.range' c n).Nodup := by
  refine ⟨?_, List.pairwise_lt_range' c n, List.nodup_range' c n⟩
  induction n generalizing c with
  | zero => simp [allocateN]
  | succ k ih =>
    have h1 : c + 1 < U256_SIZE := by omega
    have heq := ih (c + 1) (by omega)
    have hc : c + 1 + k = c + (k + 1) := by omega
    simp [allocateN, allocate, h1, heq, List.range'_succ, hc]

/-- Witness for C7 at `c = 5`, `N = 3`. -/
theorem allocate_sequence_witness :
    5 + 3 < U256_SIZE ∧
    allocateN 3 5 = some (List.range' 5 3, 5 + 3) :=
  ⟨by decide, (allocate_sequence 5 3 (by decide)).1⟩

/-- C5 (counterexample to the claim for the backfill loop): with a
handler that fails on event `0`, the backfill dispatch loop over the
events `[0, 1]` aborts with the error and never dispatches event `1`
(the claim says the loop continues), while the live dispatch loop over
the same events swallows the failure and processes both. -/
theorem dispatch_loop_counterexample :
    backfillDispatchLoop exampleHandler 0 [0, 1] = Except.error () ∧
    backfillDispatchLoop exampleHandler 0 [0, 1] ≠ Except.ok 2 ∧
    liveDispatchLoop exampleHandler 0 [0, 1] = 2 := by
  refine ⟨rfl, ?_, rfl⟩
  intro hcontra
  simp [backfillDispatchLoop, exampleHandler] at hcontra

/-- C5 (amended): a handler failure is surfaced as a failure of that
single mutation; the live dispatch loop discards it and continues with
the next event, but the backfill dispatch loop propagates it and aborts
the sync loop at that event. -/
theorem dispatch_loop_error_handling {σ ev ε : Type} (handle : σ → ev → σ × Option ε)
    (s : σ) (e : ev) (es : List ev) (err : ε) (h : (handle s e).2 = some err) :
    backfillDispatchLoop handle s (e :: es) = Except.error err ∧
    liveDispatchLoop handle s (e :: es) = liveDispatchLoop handle (handle s e).1 es := by
  rcases hse : handle s e with ⟨s', r⟩
  rw [hse] at h
  simp only at h
  subst h
  exact ⟨by simp [backfillDispatchLoop, hse], by simp [liveDispatchLoop, hse]⟩

/-- Witness for C5 with the sample failing handler. -/
theorem dispatch_loop_error_handling_witness :
    (exampleHandler 0 0).2 = some () ∧
    backfillDispatchLoop exampleHandler 0 [0, 1] = Except.error () ∧
    liveDispatchLoop exampleHandler 0 [0, 1] =
      liveDispatchLoop exampleHandler (exampleHandler 0 0).1 [1] :=
  ⟨rfl, (dispatch_loop_error_handling exampleHandler 0 0 [1] () rfl).1,
    (dispatch_loop_error_handling exampleHandler 0 0 [1] () rfl).2⟩

/-- C4 (counterexample to "removes exactly the first matching note"):
a bucket holding two distinct notes that share the note id `"0xaa"`
(duplicate "note created" delivery produces exactly this); the code's
`retain` removes both, not just the first. -/
theorem remove_unspent_note_counterexample :
    removeNoteFromBuckets [("0xr", [exampleNote 1, exampleNote 2])] "0xaa" =
      [("0xr", [])] ∧
    removeNoteFromBuckets [("0xr", [exampleNote 1, exampleNote 2])] "0xaa" ≠
      [("0xr", [exampleNote 2])] := by
  refine ⟨by decide, by decide⟩

/-- C4 (amended): `remove_unspent_note` scans the receiver-hash buckets
in key order, removes all notes whose id matches inside the first bucket
containing a match, stops there (leaving every other bucket unchanged),
and when no note in any bucket matches it leaves every bucket unchanged
and returns success. -/
theorem remove_unspent_note_first_bucket (target : String) :
    (∀ buckets : List (String × List UnspentNote),
      (∀ b ∈ buckets, ∀ n ∈ b.2, n.note_id ≠ target) →
      removeNoteFromBuckets buckets target = buckets) ∧
    (∀ pre : List (String × List UnspentNote), ∀ key : String,
      ∀ notes : List UnspentNote, ∀ post : List (String × List UnspentNote),
      (∀ b ∈ pre, ∀ n ∈ b.2, n.note_id ≠ target) →
      (∃ n ∈ notes, n.note_id = target) →
      removeNoteFromBuckets (pre ++ (key, notes) :: post) target =
        pre ++ (key, notes.filter (fun n => n.note_id != target)) :: post) := by
  have hkeep : ∀ notes : List UnspentNote, (∀ n ∈ notes, n.note_id ≠ target) →
      notes.filter (fun n => n.note_id != target) = notes := by
    intro notes hn
    rw [List.filter_eq_self]
    intro n hmem
    simpa using hn n hmem
  have hshrink : ∀ notes : List UnspentNote, (∃ n ∈ notes, n.note_id = target) →
      (notes.filter (fun n => n.note_id != target)).length < notes.length := by
    intro notes hn
    rcases Nat.lt_or_ge (notes.filter (fun n => n.note_id != target)).length
        notes.length with hlt | hge
    · exact hlt
    · exfalso
      have hlen : (notes.filter (fun n => n.note_id != target)).length =
          notes.length :=
        Nat.le_antisymm (List.length_filter_le _ _) hge
      have hall := List.filter_length_eq_length.mp hlen
      rcases hn with ⟨n, hmem, hid⟩
      have := hall n hmem
      simp [hid] at this
  constructor
  · intro buckets
    induction buckets with
    | nil => intro _; rfl
    | cons b rest ih =>
      intro hb
      obtain ⟨key, notes⟩ := b
      have hfix : notes.filter (fun n => n.note_id != target) = notes :=
        hkeep notes (hb (key, notes) (List.mem_cons_self _ _))
      have hnotlt : ¬ (notes.filter (fun n => n.note_id != target)).length <
          notes.length := by
        rw [hfix]
        exact Nat.lt_irrefl _
      simp only [removeNoteFromBuckets]
      rw [if_neg hnotlt, ih (fun b hbm n hn => hb b (List.mem_cons_of_mem _ hbm) n hn)]
  · intro pre
    induction pre with
    | nil =>
      intro key notes post _ hmatch
      simp only [List.nil_append, removeNoteFromBuckets,
        if_pos (hshrink notes hmatch)]
    | cons b rest ih =>
      intro key notes post hpre hmatch
      obtain ⟨bkey, bnotes⟩ := b
      have hfix : bnotes.filter (fun n => n.note_id != target) = bnotes :=
        hkeep bnotes (hpre (bkey, bnotes) (List.mem_cons_self _ _))
      have hnotlt : ¬ (bnotes.filter (fun n => n.note_id != target)).length <
          bnotes.length := by
        rw [hfix]
        exact Nat.lt_irrefl _
      simp only [List.cons_append, removeNoteFromBuckets, List.append_eq]
      rw [if_neg hnotlt, ih key notes post
        (fun b hbm n hn => hpre b (List.mem_cons_of_mem _ hbm) n hn) hmatch]

/-- Witness for C4: a no-match scan over two buckets and a matching scan
that stops at the first bucket. -/
theorem remove_unspent_note_first_bucket_witness :
    (∀ b ∈ [("0xq", [exampleNote 3])], ∀ n ∈ b.2, n.note_id ≠ "0xzz") ∧
    removeNoteFromBuckets [("0xq", [exampleNote 3])] "0xzz" =
      [("0xq", [exampleNote 3])] ∧
    removeNoteFromBuckets ([("0xq", [])] ++ ("0xr", [exampleNote 1]) ::
        [("0xs", [exampleNote 2])]) "0xaa" =
      [("0xq", [])] ++ ("0xr", (List.filter (fun n => n.note_id != "0xaa")
        [exampleNote 1])) :: [("0xs", [exampleNote 2])] :=
  ⟨by decide,
   (remove_unspent_note_first_bucket "0xzz").1 [("0xq", [exampleNote 3])] (by decide),
   (remove_unspent_note_first_bucket "0xaa").2 [("0xq", [])] "0xr" [exampleNote 1]
     [("0xs", [exampleNote 2])] (by decide) ⟨exampleNote 1, by decide, by decide⟩⟩

theorem ledgerInv_exec (ops : List LedgerOp) :
    ((addedIds ops).map Prod.fst).Nodup → LedgerInv (addedIds ops) (execOps ops) := by
  induction ops using List.reverseRecOn with
  | nil =>
    intro _
    refine ⟨?_, ?_, ?_, ?_, ?_⟩ <;>
      simp [addedIds, execOps, openIds, histIds, emptyDatabase]
  | append_singleton ops op ih =>
    intro hnd
    have hexec : execOps (ops ++ [op]) = applyOp (execOps ops) op := by
      simp [execOps, List.foldl_append]
    cases op with
    | addOpen owner p =>
      have hadd : addedIds (ops ++ [LedgerOp.addOpen owner p]) =
          addedIds ops ++ [(p.position_id, owner)] := by
        simp [addedIds, List.filterMap_append]
      rw [hadd] at hnd ⊢
      rw [hexec]
      have hnd2 := hnd
      rw [List.map_append, List.nodup_append] at hnd2
      refine ledgerInv_add _ _ (ih hnd2.1) owner p ?_
      intro hcontra
      exact (hnd2.2.2 hcontra) (by simp)
    | moveHist pid st pnl addr =>
      have hadd : addedIds (ops ++ [LedgerOp.moveHist pid st pnl addr]) =
          addedIds ops := by
        simp [addedIds, List.filterMap_append]
      rw [hadd] at hnd ⊢
      rw [hexec]
      exact ledgerInv_move _ _ (ih hnd) pid st pnl addr

/-- C2 (counterexample): replaying open, then close, then open-again for
the same position id is a sequence of handler operations from the empty
ledger that reaches a state where the id sits in BOTH the owner's open
set and the owner's historical set, refuting the exactly-one invariant
for arbitrary handler sequences. -/
theorem ledger_invariant_counterexample :
    "0x1" ∈ openIds (execOps duplicateOpenOps) "owner" ∧
    "0x1" ∈ histIds (execOps duplicateOpenOps) "owner" := by
  refine ⟨by decide, by decide⟩

/-- C2 (amended): for every state reachable from the empty ledger by a
sequence of handler operations in which no position id is passed to
`add_open_position` more than once, every added position id exists in
exactly one of its owner's open set and historical set, and the
reverse-index entry (mapping the id to that owner) exists exactly when
the position is in the open set. -/
theorem ledger_invariant_unique_adds (ops : List LedgerOp)
    (hnodup : ((addedIds ops).map Prod.fst).Nodup) :
    ∀ pid owner, (pid, owner) ∈ addedIds ops →
      ((pid ∈ openIds (execOps ops) owner ∧ pid ∉ histIds (execOps ops) owner ∧
        (execOps ops).position_id_to_owner pid = some owner) ∨
       (pid ∉ openIds (execOps ops) owner ∧ pid ∈ histIds (execOps ops) owner ∧
        (execOps ops).position_id_to_owner pid = none)) :=
  fun pid owner hmem => (ledgerInv_exec ops hnodup).1 pid owner hmem

/-- Witness for C2 on the open-then-close sequence. -/
theorem ledger_invariant_unique_adds_witness :
    ((addedIds uniqueAddOps).map Prod.fst).Nodup ∧
    ("0x1", "owner") ∈ addedIds uniqueAddOps ∧
    (("0x1" ∈ openIds (execOps uniqueAddOps) "owner" ∧
      "0x1" ∉ histIds (execOps uniqueAddOps) "owner" ∧
      (execOps uniqueAddOps).position_id_to_owner "0x1" = some "owner") ∨
     ("0x1" ∉ openIds (execOps uniqueAddOps) "owner" ∧
      "0x1" ∈ histIds (execOps uniqueAddOps) "owner" ∧
      (execOps uniqueAddOps).position_id_to_owner "0x1" = none)) :=
  ⟨by decide, by decide,
   ledger_invariant_unique_adds uniqueAddOps (by decide) "0x1" "owner" (by decide)⟩
